import Mathlib

/-!
Verification of the authentication-and-assertion pipeline of the `aws-lp`
repository (`awslp/helpers.py`) against its natural-language specification.

The Python source is shallowly embedded: byte strings become `List Nat`
(every byte < 256 where produced), pure functions become Lean functions,
HTTP calls are split into request construction and response handling, and
Python exceptions become `Except`/`Option` results.  The PBKDF2 cluster
(`xorbytes`, `prf`, `pbkdf2`, `lastpass_login_hash`) is byte-string code
written for the pre-Python-3 numeric and string semantics (integer `/`,
`str` as bytes); it is embedded under those semantics, which is the only
reading under which the functions compute at all.  External library
primitives (`hashlib.sha256`, `hmac`, `binascii`, `int()`, `str.split`,
`re` on the three fixed patterns, `ElementTree` lookups) are modelled from
their documented behaviour.
-/
namespace AwsLp

/-! ## Bytes and hex (models `binascii.hexlify` / `binascii.unhexlify`) -/
/-- Lowercase hex digit for a value below 16, as `%02x` formatting emits. -/
def hexDigitChar (n : Nat) : Char :=
  if n < 10 then Char.ofNat (48 + n) else Char.ofNat (87 + n)

/-- Models `binascii.hexlify`: each byte becomes two lowercase hex chars. -/
def hexlify (bs : List Nat) : List Char :=
  bs.foldr (fun b acc => hexDigitChar (b / 16) :: hexDigitChar (b % 16) :: acc) []

/-- Value of a hex character of the two shapes `hexlify` emits
(`0`-`9` and lowercase `a`-`f`). -/
def hexCharVal (c : Char) : Nat :=
  if c.toNat ≤ 57 then c.toNat - 48 else c.toNat - 87

/-- Models `binascii.unhexlify` on well-formed even-length hex input:
consecutive pairs of hex chars become bytes. -/
def unhexlify : List Char → List Nat
  | c1 :: c2 :: rest => (16 * hexCharVal c1 + hexCharVal c2) :: unhexlify rest
  | _ => []

/-! ## SHA-256 (models the `hashlib.sha256` primitive, FIPS 180-4) -/
/-- `2 ^ 32`, the word modulus of SHA-256. -/
def M32 : Nat := 4294967296

/-- 32-bit right rotation of a word already below `M32`. -/
def rotr (x n : Nat) : Nat := (x / 2 ^ n + (x % 2 ^ n) * 2 ^ (32 - n)) % M32

def shaSsig0 (x : Nat) : Nat := rotr x 7 ^^^ rotr x 18 ^^^ x / 2 ^ 3

def shaSsig1 (x : Nat) : Nat := rotr x 17 ^^^ rotr x 19 ^^^ x / 2 ^ 10

def shaBsig0 (x : Nat) : Nat := rotr x 2 ^^^ rotr x 13 ^^^ rotr x 22

def shaBsig1 (x : Nat) : Nat := rotr x 6 ^^^ rotr x 11 ^^^ rotr x 25

/-- The 64 SHA-256 round constants. -/
def shaK : List Nat :=
  [1116352408, 1899447441, 3049323471, 3921009573,
   961987163, 1508970993, 2453635748, 2870763221,
   3624381080, 310598401, 607225278, 1426881987,
   1925078388, 2162078206, 2614888103, 3248222580,
   3835390401, 4022224774, 264347078, 604807628,
   770255983, 1249150122, 1555081692, 1996064986,
   2554220882, 2821834349, 2952996808, 3210313671,
   3336571891, 3584528711, 113926993, 338241895,
   666307205, 773529912, 1294757372, 1396182291,
   1695183700, 1986661051, 2177026350, 2456956037,
   2730485921, 2820302411, 3259730800, 3345764771,
   3516065817, 3600352804, 4094571909, 275423344,
   430227734, 506948616, 659060556, 883997877,
   958139571, 1322822218, 1537002063, 1747873779,
   1955562222, 2024104815, 2227730452, 2361852424,
   2428436474, 2756734187, 3204031479, 3329325298]

/-- SHA-256 initial hash state. -/
def shaH0 : List Nat :=
  [1779033703, 3144134277, 1013904242, 2773480762,
   1359893119, 2600822924, 528734635, 1541459225]

/-- Big-endian 32-bit words from a byte list (groups of four bytes). -/
def bytesToWordsBE : List Nat → List Nat
  | b0 :: b1 :: b2 :: b3 :: rest =>
      (b0 * 16777216 + b1 * 65536 + b2 * 256 + b3) :: bytesToWordsBE rest
  | _ => []

/-- Big-endian bytes of a list of 32-bit words. -/
def wordsToBytesBE (ws : List Nat) : List Nat :=
  ws.foldr (fun w acc =>
    w / 16777216 % 256 :: w / 65536 % 256 :: w / 256 % 256 :: w % 256 :: acc) []

/-- Groups of sixteen words (the 512-bit chunks of a padded message). -/
def wordsToBlocks : List Nat → List (List Nat)
  | w0 :: w1 :: w2 :: w3 :: w4 :: w5 :: w6 :: w7 ::
    w8 :: w9 :: w10 :: w11 :: w12 :: w13 :: w14 :: w15 :: rest =>
      [w0, w1, w2, w3, w4, w5, w6, w7, w8, w9, w10, w11, w12, w13, w14, w15]
        :: wordsToBlocks rest
  | _ => []

/-- Extend a 16-word block by `n` further schedule words. -/
def shaExtend : Nat → List Nat → List Nat
  | 0, w => w
  | n + 1, w =>
      shaExtend n (w ++ [(shaSsig1 (w.getD (w.length - 2) 0) + w.getD (w.length - 7) 0 +
        shaSsig0 (w.getD (w.length - 15) 0) + w.getD (w.length - 16) 0) % M32])

/-- One SHA-256 compression round; the state is the eight working words. -/
def shaRound (st : List Nat) (kw : Nat × Nat) : List Nat :=
  let a := st.getD 0 0
  let b := st.getD 1 0
  let c := st.getD 2 0
  let d := st.getD 3 0
  let e := st.getD 4 0
  let f := st.getD 5 0
  let g := st.getD 6 0
  let h := st.getD 7 0
  let ch := (e &&& f) ^^^ ((e ^^^ 4294967295) &&& g)
  let maj := (a &&& b) ^^^ (a &&& c) ^^^ (b &&& c)
  let t1 := (h + shaBsig1 e + ch + kw.1 + kw.2) % M32
  let t2 := (shaBsig0 a + maj) % M32
  [(t1 + t2) % M32, a, b, c, (d + t1) % M32, e, f, g]

/-- Compress one 16-word block into the running hash state. -/
def shaCompress (h : List Nat) (block : List Nat) : List Nat :=
  let w := shaExtend 48 block
  let st := (shaK.zip w).foldl shaRound h
  List.zipWith (fun x y => (x + y) % M32) h st

/-- Big-endian 64-bit byte encoding of the message bit length. -/
def packBE64 (n : Nat) : List Nat :=
  [n / 72057594037927936 % 256, n / 281474976710656 % 256,
   n / 1099511627776 % 256, n / 4294967296 % 256,
   n / 16777216 % 256, n / 65536 % 256, n / 256 % 256, n % 256]

/-- FIPS 180-4 padding: `0x80`, zeros to 56 mod 64, 8-byte bit length. -/
def shaPad (msg : List Nat) : List Nat :=
  msg ++ [128] ++ List.replicate ((120 - (msg.length + 1) % 64) % 64) 0 ++
    packBE64 (8 * msg.length)

/-- Models `hashlib.sha256(msg).digest()`: the 32 digest bytes. -/
def sha256 (msg : List Nat) : List Nat :=
  wordsToBytesBE ((wordsToBlocks (bytesToWordsBE (shaPad msg))).foldl shaCompress shaH0)

/-! ## HMAC-SHA256 (models `hmac.new(password, None, hashlib.sha256)`) -/
/-- HMAC key padded/hashed to the 64-byte block size. -/
def hmacKeyBlock (key : List Nat) : List Nat :=
  let k := if 64 < key.length then sha256 key else key
  k ++ List.replicate (64 - k.length) 0

/-- Models `hmac.new(key, msg, hashlib.sha256).digest()`. -/
def hmacSha256 (key msg : List Nat) : List Nat :=
  let kb := hmacKeyBlock key
  sha256 ((kb.map (fun b => b ^^^ 92)) ++ sha256 ((kb.map (fun b => b ^^^ 54)) ++ msg))

/-- Source `prf(hsh, data)` where `hsh = hmac.new(password, None, sha256)`:
`hsh.copy()` updated with `data` digests to HMAC of `data` under `password`. -/
def prf (password data : List Nat) : List Nat := hmacSha256 password data

/-! ## PBKDF2 (source `xorbytes`, `pbkdf2`; `helpers.py` lines 49-75)

The source iterates `for block in range(0, (length + 31) / 32)` with the
pre-Python-3 integer `/` (floor division, here `Int.fdiv`), accumulates
`index = U1 XOR ... XOR U_rounds` per block via `hval`/`index`, slices
`key[0:length]` and returns `binascii.hexlify` of the slice. -/
/-- Source `xorbytes(string_a, string_b)`: byte-wise XOR (both arguments are
32-byte digests at every call site, so the two strings are of equal length). -/
def xorbytes (a b : List Nat) : List Nat := List.zipWith (fun x y => x ^^^ y) a b

/-- `struct.pack(">I", n)`: 4-byte big-endian encoding. -/
def packBE32 (n : Nat) : List Nat :=
  [n / 16777216 % 256, n / 65536 % 256, n / 256 % 256, n % 256]

/-- The source's inner loop `for _ in range(1, rounds)` acting on the pair
`(index, hval)`: `hval = prf(hsh, hval); index = xorbytes(index, hval)`. -/
def pbkdf2Inner (password : List Nat) : Nat → List Nat × List Nat → List Nat × List Nat
  | 0, st => st
  | n + 1, st =>
      let hval := prf password st.2
      pbkdf2Inner password n (xorbytes st.1 hval, hval)

/-- One output block of the source loop body: `index = hval = prf(hsh,
salt + pack(">I", block + 1))` followed by the inner loop, yielding `index`. -/
def pbkdf2Block (password salt : List Nat) (rounds : Int) (i : Nat) : List Nat :=
  let u1 := prf password (salt ++ packBE32 i)
  (pbkdf2Inner password (rounds - 1).toNat (u1, u1)).1

/-- The accumulated `key` after the source's block loop
(`for block in range(0, (length + 31) / 32): ... key = key + index`). -/
def pbkdf2Key (password salt : List Nat) (rounds length : Int) : List Nat :=
  (List.range ((length + 31).fdiv 32).toNat).foldl
    (fun key block => key ++ pbkdf2Block password salt rounds (block + 1)) []

/-- The raw byte slice `key[0:length]` the source feeds to `hexlify`. -/
def pbkdf2Raw (password salt : List Nat) (rounds length : Int) : List Nat :=
  (pbkdf2Key password salt rounds length).take length.toNat

/-- Source `pbkdf2(password, salt, rounds, length)`:
`binascii.hexlify(key[0:length])`, a string of hex characters. -/
def pbkdf2 (password salt : List Nat) (rounds length : Int) : List Char :=
  hexlify (pbkdf2Raw password salt rounds length)

/-- Source `lastpass_login_hash(username, password, iterations)`
(`helpers.py` lines 78-82). -/
def lastpass_login_hash (username password : List Nat) (iterations : Int) : List Char :=
  pbkdf2 (unhexlify (pbkdf2 password username iterations 32)) password 1 32

/-! ### The standard PBKDF2-HMAC-SHA256 construction, from the spec's words

"for each output block index (1-based), compute `U1 = HMAC(password, salt ||
bigEndianUint32(blockIndex))`, then iteratively `Ui = HMAC(password, U_im1)`
for `iterations-1` more rounds, accumulating `T = U1 XOR U2 XOR ... XOR Uc`
per block, concatenating blocks and truncating to `outputLength` bytes",
generating `ceil(outputLength/32)` blocks. -/
/-- `U_(k+1)` of the standard construction for block index `i`. -/
def specU (password salt : List Nat) (i : Nat) : Nat → List Nat
  | 0 => prf password (salt ++ packBE32 i)
  | k + 1 => prf password (specU password salt i k)

/-- `T = U1 XOR U2 XOR ... XOR Uc` of the standard construction. -/
def specT (password salt : List Nat) (i c : Nat) : List Nat :=
  (List.range (c - 1)).foldl
    (fun acc k => xorbytes acc (specU password salt i (k + 1)))
    (specU password salt i 0)

/-- The standard PBKDF2 output: `ceil(dkLen/32)` blocks `T(1) .. T(n)`
concatenated and truncated to `dkLen` bytes.  This definition follows the
spec's words; the implementation is compared against it. -/
def pbkdf2Spec (password salt : List Nat) (c dkLen : Nat) : List Nat :=
  (((List.range ((dkLen + 31) / 32)).map
    (fun b => specT password salt (b + 1) c)).flatten).take dkLen

/-! ## XML trees (models the `xml.etree.ElementTree` views the source uses) -/
/-- A parsed XML element: tag (namespace-expanded, as ElementTree stores it),
attributes, child elements in document order, and optional text content. -/
inductive Xml where
  | elem (tag : String) (attrs : List (String × String)) (children : List Xml)
         (text : Option String)

def Xml.tag : Xml → String
  | .elem t _ _ _ => t

def Xml.attrs : Xml → List (String × String)
  | .elem _ a _ _ => a

def Xml.children : Xml → List Xml
  | .elem _ _ c _ => c

def Xml.text : Xml → Option String
  | .elem _ _ _ tx => tx

/-- `element.get(key)`: attribute lookup, `None` when absent. -/
def Xml.get (x : Xml) (key : String) : Option String :=
  (x.attrs.find? (fun p => p.1 == key)).map (fun p => p.2)

/-- `element.find(tag)`: first direct child with the given tag, else `None`. -/
def Xml.find (x : Xml) (t : String) : Option Xml :=
  x.children.find? (fun c => c.tag == t)

mutual

/-- An element followed by all its strict descendants, preorder
(= document order). -/
def Xml.withDescendants : Xml → List Xml
  | .elem t a c tx => Xml.elem t a c tx :: Xml.descendantsList c

/-- All elements of a forest with their descendants, in document order. -/
def Xml.descendantsList : List Xml → List Xml
  | [] => []
  | x :: xs => Xml.withDescendants x ++ Xml.descendantsList xs

end

/-- The strict descendants of the root, document order: the elements the
`.//` XPath step ranges over. -/
def Xml.subElems (x : Xml) : List Xml := Xml.descendantsList x.children

/-! ## `lastpass_login` response handling (`helpers.py` lines 125-134) -/
/-- The two exceptions the login error branch can raise:
`MfaRequiredException` and `ValueError`. -/
inductive LoginError where
  | mfaRequired (msg : String)
  | valueError (msg : String)
deriving DecidableEq

deriving instance DecidableEq for Except

/-- Models Python string interpolation of an `Optional[str]` value
(an absent attribute renders as `None`). -/
def pyStrOfOpt : Option String → String
  | none => "None"
  | some s => s

/-- The post-parse decision of `lastpass_login`: look up the direct child
`<error>`; `cause="googleauthrequired"` raises `MfaRequiredException`, any
other error element raises `ValueError` with the server message, and absence
of an error element returns normally. -/
def lastpass_login_check (doc : Xml) : Except LoginError Unit :=
  match doc.find "error" with
  | none => .ok ()
  | some e =>
    if e.get "cause" = some "googleauthrequired" then
      .error (.mfaRequired "Need MFA for this login")
    else
      .error (.valueError ("Could not login to lastpass: " ++ pyStrOfOpt (e.get "message")))

/-! ## `lastpass_iterations` (`helpers.py` lines 85-100) -/
/-- An HTTP response as the source consumes it: status code and body text. -/
structure HttpResponse where
  status : Nat
  text : String
deriving DecidableEq

/-- Python whitespace accepted around an integer literal. -/
def isPySpace (c : Char) : Bool :=
  c == ' ' || c == '\t' || c == '\n' || c == '\r' || c == '\x0b' || c == '\x0c'

/-- Digit run to a number, `none` if empty or any non-digit present. -/
def digitsToNat : List Char → Option Nat
  | [] => none
  | cs =>
    if cs.all (fun c => c.isDigit) then
      some (cs.foldl (fun acc c => 10 * acc + (c.toNat - 48)) 0)
    else none

/-- Models the builtin `int(s)` on a decimal string: optional surrounding
whitespace, optional sign, decimal digits; `none` models the `ValueError`
(digit-group underscores are not modelled). -/
def pyInt (s : String) : Option Int :=
  let cs := ((s.data.dropWhile isPySpace).reverse.dropWhile isPySpace).reverse
  match cs with
  | [] => none
  | c :: rest =>
    if c = '+' then (digitsToNat rest).map (fun n => (n : Int))
    else if c = '-' then (digitsToNat rest).map (fun n => -(n : Int))
    else (digitsToNat cs).map (fun n => (n : Int))

/-- The iteration count `lastpass_iterations` ends up with: `5000` is set
before the request; on HTTP 200 the body is parsed with `int()`, whose
`ValueError` propagates (the body is carried as the error payload). -/
def lastpass_iterations_check (response : HttpResponse) : Except String Int :=
  if response.status = 200 then
    match pyInt response.text with
    | some n => .ok n
    | none => .error ("invalid literal for int() with base 10: " ++ response.text)
  else .ok 5000

/-! ## `get_saml_aws_roles` (`helpers.py` lines 169-184) -/
/-- `str.split(sep, maxsplit)` accumulator for a one-character separator:
at most `maxsplit` splits, the remainder is kept whole. -/
def pySplitAux (sep : Char) : List Char → Nat → List Char → List (List Char)
  | [], _, acc => [acc.reverse]
  | c :: rest, 0, acc => pySplitAux sep rest 0 (c :: acc)
  | c :: rest, n + 1, acc =>
    if c = sep then acc.reverse :: pySplitAux sep rest n []
    else pySplitAux sep rest (n + 1) (c :: acc)

/-- Models `text.split(",", 2)`. -/
def pySplitComma2 (s : String) : List String :=
  (pySplitAux ',' s.data 2 []).map (fun l => String.mk l)

/-- ElementTree tag of `saml:Attribute` under the SAML 2.0 assertion
namespace, in expanded form. -/
def samlAttributeTag : String := "\x7burn:oasis:names:tc:SAML:2.0:assertion\x7dAttribute"

/-- Expanded ElementTree tag of `saml:AttributeValue`. -/
def samlAttributeValueTag : String :=
  "\x7burn:oasis:names:tc:SAML:2.0:assertion\x7dAttributeValue"

/-- The fixed AWS role-attribute URI. -/
def awsRoleAttribName : String := "https://aws.amazon.com/SAML/Attributes/Role"

/-- The nodes `doc.findall(".//saml:Attribute[@Name='...Role']/saml:AttributeValue",
namespace)` returns: for each descendant `Attribute` with the AWS role `Name`
(document order), its `AttributeValue` children in order. -/
def roleAttributeValues (doc : Xml) : List Xml :=
  ((doc.subElems).filter
    (fun e => e.tag == samlAttributeTag && e.get "Name" == some awsRoleAttribName)).flatMap
    (fun e => e.children.filter (fun c => c.tag == samlAttributeValueTag))

/-- The list comprehension `[a.text.split(",", 2) for a in attribs]`;
`none` models the `AttributeError` raised when a node has no text. -/
def splitComprehension : List Xml → Option (List (List String))
  | [] => some []
  | a :: rest =>
    match a.text with
    | none => none
    | some t => (splitComprehension rest).map (fun rs => pySplitComma2 t :: rs)

/-- The texts of a node list, `none` if any node lacks text. -/
def collectTexts : List Xml → Option (List String)
  | [] => some []
  | a :: rest =>
    match a.text with
    | none => none
    | some t => (collectTexts rest).map (fun ts => t :: ts)

/-- Source `get_saml_aws_roles(assertion)`:
`[a.text.split(",", 2) for a in attribs]` over the matched nodes. -/
def get_saml_aws_roles (doc : Xml) : Option (List (List String)) :=
  splitComprehension (roleAttributeValues doc)

/-! ## `prompt_for_role` (`helpers.py` lines 201-221) -/
/-- Observable outcome of `prompt_for_role` on a finite script of console
inputs: a returned role, an `IndexError` from `roles[choice - 1]`, or the
input script running out while the loop still re-prompts. -/
inductive PromptOutcome where
  | returns (r : List String)
  | indexError
  | inputExhausted
deriving DecidableEq

/-- The `while choice < 1 or choice > len(roles) + 1` loop: each iteration
reads one input, `int()` failure sets `choice = 0`; on exit the source
evaluates `roles[choice - 1]`. -/
def promptLoop (roles : List (List String)) : List String → PromptOutcome
  | [] => .inputExhausted
  | s :: rest =>
    let choice : Int := (pyInt s).getD 0
    if choice < 1 ∨ (roles.length : Int) + 1 < choice then promptLoop roles rest
    else
      match roles.get? (choice - 1).toNat with
      | some r => .returns r
      | none => .indexError

/-- Source `prompt_for_role(roles)` run against a script of console inputs:
a single role is returned with no interaction, otherwise the choice loop runs. -/
def prompt_for_role (roles : List (List String)) (inputs : List String) : PromptOutcome :=
  if roles.length = 1 then .returns (roles.headD [])
  else promptLoop roles inputs

/-! ## Literal scanning primitives (model the three fixed `re` patterns) -/
/-- `pat` is literally the first characters of `s`. -/
def litAt : List Char → List Char → Bool
  | [], _ => true
  | _ :: _, [] => false
  | c :: cs, x :: xs => x = c && litAt cs xs

/-- Drop the literal `pat` off the front of `s`, if present. -/
def dropLit : List Char → List Char → Option (List Char)
  | [], s => some s
  | _ :: _, [] => none
  | c :: cs, x :: xs => if x = c then dropLit cs xs else none

/-- Models the Python `in` operator on strings: `pat` occurs in `s`. -/
def strContains (pat : List Char) : List Char → Bool
  | [] => litAt pat []
  | x :: xs => litAt pat (x :: xs) || strContains pat xs

/-! ## `extract_form` (`helpers.py` lines 27-46)

The two patterns are fixed: `name="([^"]*)" (id="([^"]*)" )?value="([^"]*)"`
scanned with `re.findall` (leftmost, non-overlapping), and
`action="([^"]*)"` with `re.search` (first match).  `[^"]*` before a literal
quote is deterministic: it is exactly the run of non-quote characters. -/
/-- Match `value="([^"]*)"` at the head, returning the capture and the rest. -/
def matchValueTail (s : List Char) : Option (String × List Char) :=
  match dropLit "value=\"".data s with
  | none => none
  | some s1 =>
    match dropLit "\"".data (s1.dropWhile (fun c => c ≠ '"')) with
    | none => none
    | some s2 => some (String.mk (s1.takeWhile (fun c => c ≠ '"')), s2)

/-- Match the optional group `id="([^"]*)" ` at the head, returning the rest. -/
def matchIdTail (s : List Char) : Option (List Char) :=
  match dropLit "id=\"".data s with
  | none => none
  | some s1 => dropLit "\" ".data (s1.dropWhile (fun c => c ≠ '"'))

/-- Match the whole `name="..." (id="..." )?value="..."` pattern at the head
(greedy optional group with backtracking), returning the `(name, value)`
captures and the rest of the input. -/
def matchNVAt (s : List Char) : Option ((String × String) × List Char) :=
  match dropLit "name=\"".data s with
  | none => none
  | some s1 =>
    let nameCap := String.mk (s1.takeWhile (fun c => c ≠ '"'))
    match dropLit "\" ".data (s1.dropWhile (fun c => c ≠ '"')) with
    | none => none
    | some s2 =>
      match matchIdTail s2 with
      | some s3 =>
        match matchValueTail s3 with
        | some (v, rest) => some ((nameCap, v), rest)
        | none => (matchValueTail s2).map (fun p => ((nameCap, p.1), p.2))
      | none => (matchValueTail s2).map (fun p => ((nameCap, p.1), p.2))

/-- `re.findall` over the name/value pattern on a step budget (each step
consumes at least one character, by `matchNVAt_shrink`, so a budget of the
input length is never exhausted): leftmost matches, scanning resumes after
each match (non-overlapping). -/
def findNVFuel : Nat → List Char → List (String × String)
  | 0, _ => []
  | _ + 1, [] => []
  | fuel + 1, c :: cs =>
    match matchNVAt (c :: cs) with
    | some p => p.1 :: findNVFuel fuel p.2
    | none => findNVFuel fuel cs

def findNV (s : List Char) : List (String × String) := findNVFuel s.length s

/-- Match `action="([^"]*)"` at the head of the input. -/
def matchActionAt (s : List Char) : Option String :=
  match dropLit "action=\"".data s with
  | none => none
  | some s1 =>
    match dropLit "\"".data (s1.dropWhile (fun c => c ≠ '"')) with
    | none => none
    | some _ => some (String.mk (s1.takeWhile (fun c => c ≠ '"')))

/-- `re.search` over the action pattern: the first (leftmost) match. -/
def searchAction : List Char → Option String
  | [] => none
  | c :: cs =>
    match matchActionAt (c :: cs) with
    | some v => some v
    | none => searchAction cs

/-- Every position's action match, leftmost first (first element = the
`re.search` result). -/
def allActions : List Char → List String
  | [] => []
  | c :: cs =>
    match matchActionAt (c :: cs) with
    | some v => v :: allActions cs
    | none => allActions cs

/-- A Python `dict` as its insertion-ordered item list; assignment updates an
existing key in place or appends a fresh one. -/
def pyDictSet : List (String × String) → String × String → List (String × String)
  | [], kv => [kv]
  | (k, v) :: rest, kv =>
    if k = kv.1 then (k, kv.2) :: rest else (k, v) :: pyDictSet rest kv

/-- The result of `extract_form`. -/
structure HtmlForm where
  action : String
  fields : List (String × String)
deriving DecidableEq

/-- Source `extract_form(html)`: all `name/value` captures are written into
`fields` in match order; `action` is the first `action="..."` capture, or
the empty string when the page has none. -/
def extract_form (html : List Char) : HtmlForm :=
  { action := (searchAction html).getD ""
    fields := (findNV html).foldl pyDictSet [] }

/-! ## The `get_saml_token` failure path (`helpers.py` lines 137-166) -/
/-- First index at which `pat` literally occurs in `s`. -/
def firstLitIdx (pat : List Char) : List Char → Option Nat
  | [] => if litAt pat [] then some 0 else none
  | c :: cs =>
    if litAt pat (c :: cs) then some 0
    else (firstLitIdx pat cs).map (fun i => i + 1)

/-- Last index at which `pat` literally occurs in `s`. -/
def lastLitIdx (pat : List Char) : List Char → Option Nat
  | [] => if litAt pat [] then some 0 else none
  | c :: cs =>
    match (lastLitIdx pat cs).map (fun i => i + 1) with
    | some j => some j
    | none => if litAt pat (c :: cs) then some 0 else none

/-- `re.search(r"<h2>(.*)</h2>", line)`: leftmost match start, greedy
capture — the text between the first `<h2>` and the last following `</h2>`. -/
def h2search (line : List Char) : Option (List Char) :=
  match firstLitIdx "<h2>".data line with
  | none => none
  | some i =>
    match lastLitIdx "</h2>".data (line.drop (i + 4)) with
    | none => none
    | some j => some ((line.drop (i + 4)).take j)

/-- The named entities modelled of the library `HTMLParser().unescape`
(the common subset; the concrete pages under test contain no entities). -/
def entityTable : List (List Char × Char) :=
  [("amp;".data, '&'), ("lt;".data, '<'), ("gt;".data, '>'), ("quot;".data, '"')]

/-- Try each entity pattern at the head of the input. -/
def tryEntities : List (List Char × Char) → List Char → Option (Char × List Char)
  | [], _ => none
  | (pat, ch) :: more, s =>
    match dropLit pat s with
    | some r => some (ch, r)
    | none => tryEntities more s

/-- One-pass scan of the library `unescape`, structured on a step budget
(each step consumes at least one character, so a budget of the input length
is never exhausted): a recognised `&entity;` becomes its character,
everything else is copied. -/
def unescapeFuel : Nat → List Char → List Char
  | 0, s => s
  | _ + 1, [] => []
  | fuel + 1, c :: cs =>
    if c = '&' then
      match tryEntities entityTable cs with
      | some q => q.1 :: unescapeFuel fuel q.2
      | none => c :: unescapeFuel fuel cs
    else c :: unescapeFuel fuel cs

def unescapeScan (s : List Char) : List Char := unescapeFuel s.length s

/-- Models `str.replace(pat, repl)` on a step budget (each step consumes at
least one character when `pat` is nonempty, as all uses are): leftmost
non-overlapping replacement. -/
def replaceFuel (pat repl : List Char) : Nat → List Char → List Char
  | 0, s => s
  | _ + 1, [] => []
  | fuel + 1, c :: cs =>
    match dropLit pat (c :: cs) with
    | some rest =>
      if pat.isEmpty then c :: replaceFuel pat repl fuel cs
      else repl ++ replaceFuel pat repl fuel rest
    | none => c :: replaceFuel pat repl fuel cs

def replaceAll (pat repl : List Char) (s : List Char) : List Char :=
  replaceFuel pat repl s.length s

/-- The cleanup applied to a matched `<h2>` group: entity unescape, then
`<br/>` to newline, then `<b>` and `</b>` stripped. -/
def h2CleanMsg (g : List Char) : String :=
  String.mk (replaceAll "</b>".data [] (replaceAll "<b>".data []
    (replaceAll "<br/>".data ['\n'] (unescapeScan g))))

/-- The diagnostic one line contributes, when its `<h2>` pattern matches. -/
def h2LineMessage (line : List Char) : Option String :=
  (h2search line).map h2CleanMsg

/-- `str.splitlines` restricted to `\n` separators (the only ones the pages
under test contain): no trailing empty line. -/
def pySplitlinesAux : List Char → List Char → List (List Char)
  | [], acc => if acc.isEmpty then [] else [acc.reverse]
  | c :: cs, acc =>
    if c = '\n' then acc.reverse :: pySplitlinesAux cs []
    else pySplitlinesAux cs (c :: acc)

def pySplitlines (s : String) : List String :=
  (pySplitlinesAux s.data []).map (fun l => String.mk l)

/-- The error-scrape loop of `get_saml_token`: over all lines, the last
matching `<h2>` group (cleaned) prefixed by a newline, else the empty
string. -/
def scrape_h2_error (text : String) : String :=
  (pySplitlines text).foldl (fun err line =>
    match h2LineMessage line.data with
    | none => err
    | some msg => "\n" ++ msg) ""

/-- The failure path of `get_saml_token`: when the scraped form has no
action, the raised `ValueError` message (otherwise the success path posts
the form and is not modelled here). -/
def get_saml_token_check (text : String) : Option String :=
  if (extract_form text.data).action = "" then
    some ("Unable to find SAML ACS" ++ scrape_h2_error text)
  else none

/-! ## `should_verify` and the three requests (`helpers.py` lines 18-24,
94-95, 121-122, 147) -/
def LASTPASS_SERVER : String := "https://lastpass.com"

/-- Source `should_verify(lastpass_server)`: the Python substring test
`LASTPASS_SERVER in lastpass_server`. -/
def should_verify (lastpass_server : String) : Bool :=
  strContains LASTPASS_SERVER.data lastpass_server.data

/-- An outgoing HTTP request as the source builds it: URL, form data, and
the `verify=` TLS-verification flag. -/
structure HttpRequest where
  url : String
  formData : List (String × String)
  verify : Bool
deriving DecidableEq

/-- Byte view of a pre-Python-3 `str`. -/
def pyEncode (s : String) : List Nat := s.data.map Char.toNat

/-- The POST `lastpass_iterations` sends (`helpers.py` lines 88-95). -/
def lastpass_iterations_request (lastpass_server username : String) : HttpRequest :=
  { url := lastpass_server ++ "/iterations.php"
    formData := [("email", username)]
    verify := should_verify lastpass_server }

/-- The POST `lastpass_login` sends (`helpers.py` lines 108-122). -/
def lastpass_login_request (lastpass_server username : String) (password : List Nat)
    (iterations : Int) (otp : Option String) : HttpRequest :=
  { url := lastpass_server ++ "/login.php"
    formData := [("method", "web"), ("xml", "1"), ("username", username),
      ("hash", String.mk (lastpass_login_hash (pyEncode username) password iterations)),
      ("iterations", toString iterations)] ++
      (match otp with
       | some o => [("otp", o)]
       | none => [])
    verify := should_verify lastpass_server }

/-- The GET `get_saml_token` sends (`helpers.py` lines 145-147). -/
def get_saml_token_request (lastpass_server saml_cfg_id : String) : HttpRequest :=
  { url := lastpass_server ++ "/saml/launch/cfg/" ++ saml_cfg_id
    formData := []
    verify := should_verify lastpass_server }

/-- An error element with the MFA cause, and a login response carrying it. -/
def demoMfaError : Xml := .elem "error" [("cause", "googleauthrequired")] [] none

def demoMfaDoc : Xml := .elem "response" [] [demoMfaError] none

/-- The single-form page of the spec's §8 `extractForm` example. -/
def demoFormPage : String :=
  "<form action=\"https://x/acs\"><input name=\"SAMLResponse\" value=\"abc123\"/></form>"

/-- Two forms on one page: both field pairs are collected, only the first
action is kept. -/
def demoTwoFormPage : String :=
  demoFormPage ++
    "<form action=\"https://y/other\"><input name=\"Other\" id=\"oid\" value=\"v2\"/></form>"

/-- The two `AttributeValue` assertion of the spec's §8 example. -/
def demoAssertion : Xml :=
  .elem "root" []
    [.elem samlAttributeTag [("Name", awsRoleAttribName)]
      [.elem samlAttributeValueTag [] []
        (some "arn:aws:iam::111:role/A,arn:aws:iam::111:saml-provider/IdP"),
       .elem samlAttributeValueTag [] []
        (some "arn:aws:iam::111:role/B,arn:aws:iam::111:saml-provider/IdP")] none] none

theorem hexlify_cons (b : Nat) (bs : List Nat) :
    hexlify (b :: bs) = hexDigitChar (b / 16) :: hexDigitChar (b % 16) :: hexlify bs := rfl

theorem hexlify_length (bs : List Nat) : (hexlify bs).length = 2 * bs.length := by
  induction bs with
  | nil => rfl
  | cons b bs ih => simp [hexlify_cons, ih]; omega

theorem hexCharVal_hexDigitChar {n : Nat} (h : n < 16) :
    hexCharVal (hexDigitChar n) = n := by
  interval_cases n <;> decide

theorem unhexlify_hexlify (bs : List Nat) (h : ∀ b ∈ bs, b < 256) :
    unhexlify (hexlify bs) = bs := by
  induction bs with
  | nil => rfl
  | cons b bs ih =>
    have hb : b < 256 := h b (List.mem_cons_self _ _)
    have hdiv : b / 16 < 16 := by omega
    have hmod : b % 16 < 16 := by omega
    rw [hexlify_cons]
    show (16 * hexCharVal (hexDigitChar (b / 16)) + hexCharVal (hexDigitChar (b % 16)))
        :: unhexlify (hexlify bs) = b :: bs
    rw [hexCharVal_hexDigitChar hdiv, hexCharVal_hexDigitChar hmod,
        ih (fun x hx => h x (List.mem_cons_of_mem _ hx))]
    congr 1
    omega

theorem shaRound_length (st : List Nat) (kw : Nat × Nat) :
    (shaRound st kw).length = 8 := rfl

theorem foldl_shaRound_length (l : List (Nat × Nat)) (st : List Nat)
    (h : st.length = 8) : (l.foldl shaRound st).length = 8 := by
  induction l generalizing st with
  | nil => simpa using h
  | cons kw l ih => exact ih _ (shaRound_length _ _)

theorem shaCompress_length (h block : List Nat) (hh : h.length = 8) :
    (shaCompress h block).length = 8 := by
  simp [shaCompress, List.length_zipWith, hh,
    foldl_shaRound_length _ _ hh]

theorem foldl_shaCompress_length (blocks : List (List Nat)) (h : List Nat)
    (hh : h.length = 8) : (blocks.foldl shaCompress h).length = 8 := by
  induction blocks generalizing h with
  | nil => simpa using hh
  | cons b blocks ih => exact ih _ (shaCompress_length _ _ hh)

theorem wordsToBytesBE_length (ws : List Nat) :
    (wordsToBytesBE ws).length = 4 * ws.length := by
  induction ws with
  | nil => rfl
  | cons w ws ih =>
    show (_ :: _ :: _ :: _ :: wordsToBytesBE ws).length = 4 * (ws.length + 1)
    simp [ih]; omega

theorem wordsToBytesBE_mem_lt (ws : List Nat) :
    ∀ b ∈ wordsToBytesBE ws, b < 256 := by
  induction ws with
  | nil => intro b hb; simp [wordsToBytesBE] at hb
  | cons w ws ih =>
    intro b hb
    have : b = w / 16777216 % 256 ∨ b = w / 65536 % 256 ∨ b = w / 256 % 256 ∨
        b = w % 256 ∨ b ∈ wordsToBytesBE ws := by
      simpa [wordsToBytesBE] using hb
    rcases this with h | h | h | h | h
    · omega
    · omega
    · omega
    · omega
    · exact ih b h

theorem sha256_length (msg : List Nat) : (sha256 msg).length = 32 := by
  rw [sha256, wordsToBytesBE_length, foldl_shaCompress_length _ shaH0 (by rfl)]

theorem sha256_mem_lt (msg : List Nat) : ∀ b ∈ sha256 msg, b < 256 :=
  wordsToBytesBE_mem_lt _

theorem prf_length (password data : List Nat) : (prf password data).length = 32 :=
  sha256_length _

theorem prf_mem_lt (password data : List Nat) : ∀ b ∈ prf password data, b < 256 :=
  sha256_mem_lt _

theorem pbkdf2Inner_spec (password salt : List Nat) (i : Nat) :
    ∀ (n k : Nat) (acc : List Nat),
      pbkdf2Inner password n (acc, specU password salt i k) =
        ((List.range n).foldl
          (fun a j => xorbytes a (specU password salt i (k + 1 + j))) acc,
         specU password salt i (k + n)) := by
  intro n
  induction n with
  | zero => intro k acc; simp [pbkdf2Inner]
  | succ n ih =>
    intro k acc
    have step : prf password (specU password salt i k) = specU password salt i (k + 1) := rfl
    show pbkdf2Inner password n
        (xorbytes acc (prf password (specU password salt i k)),
         prf password (specU password salt i k)) = _
    rw [step, ih (k + 1) (xorbytes acc (specU password salt i (k + 1)))]
    simp only [Prod.mk.injEq]
    refine ⟨?_, ?_⟩
    · rw [List.range_succ_eq_map, List.foldl_cons, List.foldl_map]
      have h2 : ∀ j : Nat, k + 1 + 1 + j = k + 1 + Nat.succ j := by omega
      simp only [Nat.add_zero, h2]
    · congr 1
      omega

theorem pbkdf2Block_eq_specT (password salt : List Nat) (rounds : Int) (i : Nat) :
    pbkdf2Block password salt rounds i = specT password salt i rounds.toNat := by
  have h0 : prf password (salt ++ packBE32 i) = specU password salt i 0 := rfl
  rw [pbkdf2Block, specT]
  show (pbkdf2Inner password (rounds - 1).toNat
      (prf password (salt ++ packBE32 i), prf password (salt ++ packBE32 i))).1 = _
  rw [h0, pbkdf2Inner_spec password salt i (rounds - 1).toNat 0 (specU password salt i 0)]
  have h1 : (rounds - 1).toNat = rounds.toNat - 1 := by omega
  simp only [h1, Nat.zero_add]
  congr 1
  funext a j
  have h2 : 1 + j = j + 1 := by omega
  rw [h2]

theorem foldl_append_eq_flatten {α : Type} (f : Nat → List α) (n : Nat) :
    (List.range n).foldl (fun acc i => acc ++ f i) [] = ((List.range n).map f).flatten := by
  induction n with
  | zero => rfl
  | succ n ih => simp [List.range_succ, ih]

theorem int_blocks_toNat (l : Int) (h : 0 ≤ l) :
    ((l + 31).fdiv 32).toNat = (l.toNat + 31) / 32 := by
  obtain ⟨L, rfl⟩ := Int.eq_ofNat_of_zero_le h
  have h1 : ((L : Int) + 31) = ((L + 31 : Nat) : Int) := by push_cast; ring
  rw [h1]
  simp only [Int.toNat_ofNat]
  rfl

theorem pbkdf2_eq_spec (password salt : List Nat) (rounds length : Int)
    (hl : 1 ≤ length) :
    pbkdf2 password salt rounds length =
      hexlify (pbkdf2Spec password salt rounds.toNat length.toNat) := by
  rw [pbkdf2, pbkdf2Raw, pbkdf2Key, pbkdf2Spec, foldl_append_eq_flatten,
      int_blocks_toNat length (by omega)]
  congr 1
  congr 1
  congr 1
  apply List.map_congr_left
  intro b _
  exact pbkdf2Block_eq_specT password salt rounds (b + 1)

theorem xorbytes_length (a b : List Nat) :
    (xorbytes a b).length = min a.length b.length := List.length_zipWith _ _ _

theorem xorbytes_mem_lt :
    ∀ (a b : List Nat), (∀ x ∈ a, x < 256) → (∀ x ∈ b, x < 256) →
      ∀ x ∈ xorbytes a b, x < 256 := by
  intro a
  induction a with
  | nil => intro b _ _ x hx; simp [xorbytes] at hx
  | cons y a ih =>
    intro b ha hb x hx
    cases b with
    | nil => simp [xorbytes] at hx
    | cons z b =>
      rw [xorbytes, List.zipWith_cons_cons] at hx
      rcases List.mem_cons.mp hx with h | h
      · subst h
        have h256 : (256 : Nat) = 2 ^ 8 := by norm_num
        rw [h256]
        exact Nat.xor_lt_two_pow (by rw [← h256]; exact ha y (by simp))
          (by rw [← h256]; exact hb z (by simp))
      · exact ih b (fun u hu => ha u (by simp [hu])) (fun u hu => hb u (by simp [hu])) x h

theorem pbkdf2Inner_length (password : List Nat) :
    ∀ (n : Nat) (st : List Nat × List Nat), st.1.length = 32 → st.2.length = 32 →
      (pbkdf2Inner password n st).1.length = 32 ∧ (pbkdf2Inner password n st).2.length = 32 := by
  intro n
  induction n with
  | zero => intro st h1 h2; exact ⟨h1, h2⟩
  | succ n ih =>
    intro st h1 h2
    exact ih _ (by rw [xorbytes_length, h1, prf_length]; simp) (prf_length _ _)

theorem pbkdf2Inner_mem_lt (password : List Nat) :
    ∀ (n : Nat) (st : List Nat × List Nat),
      (∀ x ∈ st.1, x < 256) → (∀ x ∈ st.2, x < 256) →
      ∀ x ∈ (pbkdf2Inner password n st).1, x < 256 := by
  intro n
  induction n with
  | zero => intro st h1 _; exact h1
  | succ n ih =>
    intro st h1 _
    exact ih _ (xorbytes_mem_lt _ _ h1 (prf_mem_lt _ _)) (prf_mem_lt _ _)

theorem pbkdf2Block_length (password salt : List Nat) (rounds : Int) (i : Nat) :
    (pbkdf2Block password salt rounds i).length = 32 := by
  simp only [pbkdf2Block]
  exact (pbkdf2Inner_length password ((rounds - 1).toNat)
    (prf password (salt ++ packBE32 i), prf password (salt ++ packBE32 i))
    (prf_length _ _) (prf_length _ _)).1

theorem pbkdf2Block_mem_lt (password salt : List Nat) (rounds : Int) (i : Nat) :
    ∀ x ∈ pbkdf2Block password salt rounds i, x < 256 := by
  simp only [pbkdf2Block]
  exact pbkdf2Inner_mem_lt password ((rounds - 1).toNat)
    (prf password (salt ++ packBE32 i), prf password (salt ++ packBE32 i))
    (prf_mem_lt _ _) (prf_mem_lt _ _)

theorem pbkdf2Key_length (password salt : List Nat) (rounds length : Int) :
    (pbkdf2Key password salt rounds length).length =
      32 * ((length + 31).fdiv 32).toNat := by
  rw [pbkdf2Key]
  generalize ((length + 31).fdiv 32).toNat = n
  induction n with
  | zero => rfl
  | succ n ih =>
    rw [List.range_succ, List.foldl_append]
    simp only [List.foldl_cons, List.foldl_nil, List.length_append, ih,
      pbkdf2Block_length]
    omega

theorem pbkdf2Key_mem_lt (password salt : List Nat) (rounds length : Int) :
    ∀ x ∈ pbkdf2Key password salt rounds length, x < 256 := by
  rw [pbkdf2Key]
  generalize ((length + 31).fdiv 32).toNat = n
  induction n with
  | zero => intro x hx; simp at hx
  | succ n ih =>
    intro x hx
    rw [List.range_succ, List.foldl_append] at hx
    simp only [List.foldl_cons, List.foldl_nil, List.mem_append] at hx
    rcases hx with hx | hx
    · exact ih x hx
    · exact pbkdf2Block_mem_lt password salt rounds _ x hx

theorem pbkdf2Raw_length (password salt : List Nat) (rounds length : Int)
    (hl : 1 ≤ length) :
    (pbkdf2Raw password salt rounds length).length = length.toNat := by
  rw [pbkdf2Raw, List.length_take, pbkdf2Key_length,
      int_blocks_toNat length (by omega)]
  omega

theorem pbkdf2Raw_mem_lt (password salt : List Nat) (rounds length : Int) :
    ∀ x ∈ pbkdf2Raw password salt rounds length, x < 256 := by
  intro x hx
  exact pbkdf2Key_mem_lt password salt rounds length x (List.mem_of_mem_take hx)

theorem pbkdf2_length (password salt : List Nat) (rounds length : Int)
    (hl : 1 ≤ length) :
    (pbkdf2 password salt rounds length).length = 2 * length.toNat := by
  rw [pbkdf2, hexlify_length, pbkdf2Raw_length password salt rounds length hl]

theorem unhexlify_pbkdf2 (password salt : List Nat) (rounds length : Int) :
    unhexlify (pbkdf2 password salt rounds length) =
      pbkdf2Raw password salt rounds length :=
  unhexlify_hexlify _ (pbkdf2Raw_mem_lt password salt rounds length)

theorem dropLit_length :
    ∀ (pat s s' : List Char), dropLit pat s = some s' → s'.length + pat.length = s.length := by
  intro pat
  induction pat with
  | nil => intro s s' h; cases h; simp
  | cons c cs ih =>
    intro s s' h
    cases s with
    | nil => simp [dropLit] at h
    | cons x xs =>
      rw [dropLit] at h
      by_cases hx : x = c
      · rw [if_pos hx] at h
        have := ih xs s' h
        simp
        omega
      · rw [if_neg hx] at h
        cases h

theorem litAt_iff (pat : List Char) :
    ∀ s : List Char, litAt pat s = true ↔ ∃ post, s = pat ++ post := by
  induction pat with
  | nil => intro s; simp [litAt]
  | cons c cs ih =>
    intro s
    cases s with
    | nil =>
      simp [litAt]
    | cons x xs =>
      rw [litAt]
      constructor
      · intro h
        rcases Bool.and_eq_true_iff.mp h with ⟨h1, h2⟩
        obtain ⟨post, hpost⟩ := (ih xs).mp h2
        exact ⟨post, by simp [hpost, of_decide_eq_true h1]⟩
      · rintro ⟨post, hpost⟩
        rw [List.cons_append] at hpost
        injection hpost with he ht
        refine Bool.and_eq_true_iff.mpr ⟨decide_eq_true he, (ih xs).mpr ⟨post, ht⟩⟩

theorem strContains_iff (pat : List Char) :
    ∀ s : List Char, strContains pat s = true ↔ ∃ pre post, s = pre ++ pat ++ post := by
  intro s
  induction s with
  | nil =>
    rw [strContains, litAt_iff]
    constructor
    · rintro ⟨post, h⟩; exact ⟨[], post, by simpa using h⟩
    · rintro ⟨pre, post, h⟩
      refine ⟨post, ?_⟩
      have h1 : pre = [] := by
        cases pre with
        | nil => rfl
        | cons a l => simp at h
      simpa [h1] using h
  | cons x xs ih =>
    rw [strContains, Bool.or_eq_true, litAt_iff, ih]
    constructor
    · rintro (⟨post, h⟩ | ⟨pre, post, h⟩)
      · exact ⟨[], post, by simpa using h⟩
      · exact ⟨x :: pre, post, by simp [h]⟩
    · rintro ⟨pre, post, h⟩
      cases pre with
      | nil => exact Or.inl ⟨post, by simpa using h⟩
      | cons a l =>
        right
        rw [List.cons_append, List.cons_append] at h
        injection h with he ht
        exact ⟨l, post, ht⟩

theorem dropWhileChar_length_le (p : Char → Bool) :
    ∀ l : List Char, (l.dropWhile p).length ≤ l.length := by
  intro l
  induction l with
  | nil => simp
  | cons c cs ih =>
    rw [List.dropWhile_cons]
    by_cases h : p c = true
    · rw [if_pos h]
      exact le_trans ih (by simp)
    · rw [if_neg h]

theorem matchValueTail_shrink (s : List Char) (p : String × List Char)
    (h : matchValueTail s = some p) : p.2.length < s.length := by
  rw [matchValueTail] at h
  cases h1 : dropLit "value=\"".data s with
  | none => simp only [h1] at h; cases h
  | some s1 =>
    simp only [h1] at h
    cases h2 : dropLit "\"".data (s1.dropWhile (fun c => c ≠ '"')) with
    | none => simp only [h2] at h; cases h
    | some s2 =>
      simp only [h2] at h
      have e1 := dropLit_length _ _ _ h1
      have e2 := dropLit_length _ _ _ h2
      have e3 : (s1.dropWhile (fun c => c ≠ '"')).length ≤ s1.length :=
        dropWhileChar_length_le _ _
      have l1 : ("value=\"".data).length = 7 := by decide
      have l2 : ("\"".data).length = 1 := by decide
      rw [l1] at e1
      rw [l2] at e2
      injection h with h3
      subst h3
      show s2.length < s.length
      omega

theorem matchIdTail_shrink (s s3 : List Char) (h : matchIdTail s = some s3) :
    s3.length < s.length := by
  rw [matchIdTail] at h
  cases h1 : dropLit "id=\"".data s with
  | none => simp only [h1] at h; cases h
  | some s1 =>
    simp only [h1] at h
    have e1 := dropLit_length _ _ _ h1
    have e2 := dropLit_length _ _ _ h
    have e3 : (s1.dropWhile (fun c => c ≠ '"')).length ≤ s1.length :=
      dropWhileChar_length_le _ _
    have l1 : ("id=\"".data).length = 4 := by decide
    have l2 : ("\" ".data).length = 2 := by decide
    rw [l1] at e1
    rw [l2] at e2
    omega

theorem matchNVAt_shrink (s : List Char) (p : (String × String) × List Char)
    (h : matchNVAt s = some p) : p.2.length < s.length := by
  rw [matchNVAt] at h
  cases h1 : dropLit "name=\"".data s with
  | none => simp only [h1] at h; cases h
  | some s1 =>
    simp only [h1] at h
    cases h2 : dropLit "\" ".data (s1.dropWhile (fun c => c ≠ '"')) with
    | none => simp only [h2] at h; cases h
    | some s2 =>
      simp only [h2] at h
      have e1 := dropLit_length _ _ _ h1
      have e2 := dropLit_length _ _ _ h2
      have e3 : (s1.dropWhile (fun c => c ≠ '"')).length ≤ s1.length :=
        dropWhileChar_length_le _ _
      have l1 : ("name=\"".data).length = 6 := by decide
      have l2 : ("\" ".data).length = 2 := by decide
      rw [l1] at e1
      rw [l2] at e2
      have hs2 : s2.length < s.length := by omega
      cases h4 : matchIdTail s2 with
      | none =>
        simp only [h4] at h
        cases h5 : matchValueTail s2 with
        | none => simp only [h5] at h; cases h
        | some q =>
          simp only [h5, Option.map_some] at h
          have hq := matchValueTail_shrink _ _ h5
          injection h with h3
          subst h3
          show q.2.length < s.length
          omega
      | some s3 =>
        simp only [h4] at h
        have hs3 := matchIdTail_shrink _ _ h4
        cases h5 : matchValueTail s3 with
        | none =>
          simp only [h5] at h
          cases h6 : matchValueTail s2 with
          | none => simp only [h6] at h; cases h
          | some q =>
            simp only [h6, Option.map_some] at h
            have hq := matchValueTail_shrink _ _ h6
            injection h with h3
            subst h3
            show q.2.length < s.length
            omega
        | some q =>
          simp only [h5] at h
          have hq := matchValueTail_shrink _ _ h5
          injection h with h3
          subst h3
          show q.2.length < s.length
          omega

theorem searchAction_eq_head (s : List Char) :
    searchAction s = (allActions s).head? := by
  induction s with
  | nil => rfl
  | cons c cs ih =>
    rw [searchAction, allActions]
    cases matchActionAt (c :: cs) with
    | some v => rfl
    | none => simpa using ih

theorem tryEntities_shrink (table : List (List Char × Char))
    (hne : ∀ p ∈ table, p.1 ≠ []) :
    ∀ (s : List Char) (q : Char × List Char), tryEntities table s = some q →
      q.2.length < s.length := by
  induction table with
  | nil => intro s q h; simp [tryEntities] at h
  | cons p more ih =>
    intro s q h
    rw [tryEntities] at h
    cases h1 : dropLit p.1 s with
    | some r =>
      simp only [h1] at h
      injection h with h2
      subst h2
      have e1 := dropLit_length _ _ _ h1
      have hp : p.1.length ≠ 0 := fun hz =>
        hne p (List.mem_cons_self _ _) (List.eq_nil_of_length_eq_zero hz)
      show r.length < s.length
      omega
    | none =>
      simp only [h1] at h
      exact ih (fun x hx => hne x (List.mem_cons_of_mem _ hx)) s q h

/-! ## Supporting lemmas for the claim theorems -/
theorem splitComprehension_eq_collect :
    ∀ (l : List Xml) (ts : List String), collectTexts l = some ts →
      splitComprehension l = some (ts.map pySplitComma2) := by
  intro l
  induction l with
  | nil =>
    intro ts h
    rw [collectTexts] at h
    injection h with h1
    subst h1
    rfl
  | cons a rest ih =>
    intro ts h
    rw [collectTexts] at h
    cases ht : a.text with
    | none => simp only [ht] at h; cases h
    | some t =>
      simp only [ht] at h
      cases hc : collectTexts rest with
      | none => rw [hc] at h; exact Option.noConfusion h
      | some ts2 =>
        rw [hc] at h
        simp only [Option.map_some'] at h
        injection h with h1
        subst h1
        rw [splitComprehension]
        simp only [ht, ih ts2 hc, Option.map_some', List.map]

theorem pySplitAux_zero (s : List Char) :
    ∀ acc : List Char, pySplitAux ',' s 0 acc = [acc.reverse ++ s] := by
  induction s with
  | nil => intro acc; simp [pySplitAux]
  | cons c cs ih =>
    intro acc
    rw [pySplitAux, ih (c :: acc)]
    simp

theorem pySplitAux_no_sep (s : List Char) (hs : ',' ∉ s) :
    ∀ (n : Nat) (acc : List Char), pySplitAux ',' s n acc = [acc.reverse ++ s] := by
  induction s with
  | nil => intro n acc; cases n <;> simp [pySplitAux]
  | cons c cs ih =>
    intro n acc
    have hc : c ≠ ',' := fun h => hs (by simp [h])
    have hcs : ',' ∉ cs := fun h => hs (by simp [h])
    cases n with
    | zero =>
      rw [pySplitAux, ih hcs 0 (c :: acc)]
      simp
    | succ n =>
      rw [pySplitAux, if_neg hc, ih hcs (n + 1) (c :: acc)]
      simp

theorem pySplitAux_sep_split (b : List Char) :
    ∀ (a : List Char) (n : Nat) (acc : List Char), ',' ∉ a →
      pySplitAux ',' (a ++ ',' :: b) (n + 1) acc =
        (acc.reverse ++ a) :: pySplitAux ',' b n [] := by
  intro a
  induction a with
  | nil =>
    intro n acc _
    rw [List.nil_append, pySplitAux, if_pos rfl]
    simp
  | cons c cs ih =>
    intro n acc ha
    have hc : c ≠ ',' := fun h => ha (by simp [h])
    have hcs : ',' ∉ cs := fun h => ha (by simp [h])
    rw [List.cons_append, pySplitAux, if_neg hc, ih n (c :: acc) hcs]
    simp

theorem pySplitComma2_pair (a b : List Char) (ha : ',' ∉ a) (hb : ',' ∉ b) :
    pySplitComma2 (String.mk (a ++ ',' :: b)) = [String.mk a, String.mk b] := by
  show (pySplitAux ',' (a ++ ',' :: b) 2 []).map (fun l => String.mk l) = _
  rw [pySplitAux_sep_split b a 1 [] ha, pySplitAux_no_sep b hb 1 []]
  simp

theorem pySplitComma2_triple (a b c : List Char) (ha : ',' ∉ a) (hb : ',' ∉ b) :
    pySplitComma2 (String.mk (a ++ ',' :: (b ++ ',' :: c))) =
      [String.mk a, String.mk b, String.mk c] := by
  show (pySplitAux ',' (a ++ ',' :: (b ++ ',' :: c)) 2 []).map (fun l => String.mk l) = _
  rw [pySplitAux_sep_split (b ++ ',' :: c) a 1 [] ha,
      pySplitAux_sep_split c b 0 [] hb, pySplitAux_zero c []]
  simp

theorem dropLit_append :
    ∀ (pat s s' : List Char), dropLit pat s = some s' → s = pat ++ s' := by
  intro pat
  induction pat with
  | nil => intro s s' h; cases h; rfl
  | cons c cs ih =>
    intro s s' h
    cases s with
    | nil => simp [dropLit] at h
    | cons x xs =>
      rw [dropLit] at h
      by_cases hx : x = c
      · rw [if_pos hx] at h
        rw [List.cons_append, ← ih xs s' h, hx]
      · rw [if_neg hx] at h
        cases h

theorem matchActionAt_lit (s : List Char) (v : String)
    (h : matchActionAt s = some v) :
    litAt "action=\"".data s = true := by
  rw [matchActionAt] at h
  cases h1 : dropLit "action=\"".data s with
  | none => simp only [h1] at h; cases h
  | some s1 =>
    exact (litAt_iff _ s).mpr ⟨s1, dropLit_append _ _ _ h1⟩

theorem searchAction_contains :
    ∀ (s : List Char) (v : String), searchAction s = some v →
      strContains "action=\"".data s = true := by
  intro s
  induction s with
  | nil => intro v h; simp [searchAction] at h
  | cons c cs ih =>
    intro v h
    rw [searchAction] at h
    rw [strContains, Bool.or_eq_true]
    cases h1 : matchActionAt (c :: cs) with
    | some w => exact Or.inl (matchActionAt_lit _ _ h1)
    | none =>
      simp only [h1] at h
      exact Or.inr (ih v h)

theorem fdiv32_toNat_zero (a : Int) (h : a < 32) : (a.fdiv 32).toNat = 0 := by
  rcases a with m | k
  · cases m with
    | zero => rfl
    | succ j =>
      show (Int.ofNat ((j + 1) / 32)).toNat = 0
      have h2 : ((j + 1 : Nat) : Int) < 32 := h
      have hj : j + 1 < 32 := by omega
      have hz : (j + 1) / 32 = 0 := by omega
      rw [hz]
      rfl
  · rfl

theorem pbkdf2Block_rounds_le_one (password salt : List Nat) (rounds : Int)
    (h : rounds ≤ 1) (i : Nat) :
    pbkdf2Block password salt rounds i = pbkdf2Block password salt 1 i := by
  rw [pbkdf2Block, pbkdf2Block]
  have h1 : (rounds - 1).toNat = 0 := by omega
  have h2 : ((1 : Int) - 1).toNat = 0 := by omega
  rw [h1, h2]

theorem pbkdf2_rounds_le_one (password salt : List Nat) (rounds length : Int)
    (h : rounds ≤ 1) :
    pbkdf2 password salt rounds length = pbkdf2 password salt 1 length := by
  rw [pbkdf2, pbkdf2, pbkdf2Raw, pbkdf2Raw, pbkdf2Key, pbkdf2Key]
  have hf : (fun (key : List Nat) (block : Nat) =>
      key ++ pbkdf2Block password salt rounds (block + 1)) =
      (fun key block => key ++ pbkdf2Block password salt 1 (block + 1)) := by
    funext k b
    rw [pbkdf2Block_rounds_le_one password salt rounds h]
  rw [hf]

theorem pbkdf2_length_nonpos (password salt : List Nat) (rounds length : Int)
    (h : length < 1) :
    pbkdf2 password salt rounds length = [] := by
  rw [pbkdf2, pbkdf2Raw]
  have h1 : length.toNat = 0 := by omega
  rw [h1, List.take_zero]
  rfl

/-! ## The claims -/
/-- C1 (corrected).  For iterations ≥ 1 and outputLength ≥ 1, `pbkdf2` is
the standard PBKDF2-HMAC-SHA256 construction — `ceil(outputLength/32)`
blocks, concatenated and truncated to exactly `outputLength` bytes — but the
value it returns is the lowercase hex encoding of that truncation, i.e.
`2 * outputLength` characters, not `outputLength` bytes.  Determinism is
inherent: the embedding is a pure function of the four arguments. -/
theorem pbkdf2_standard_construction :
    ∀ (password salt : List Nat) (rounds length : Int), 1 ≤ rounds → 1 ≤ length →
      pbkdf2 password salt rounds length =
        hexlify (pbkdf2Spec password salt rounds.toNat length.toNat) ∧
      (pbkdf2Raw password salt rounds length).length = length.toNat ∧
      (pbkdf2 password salt rounds length).length = 2 * length.toNat := by
  intro password salt rounds length _ hl
  exact ⟨pbkdf2_eq_spec password salt rounds length hl,
         pbkdf2Raw_length password salt rounds length hl,
         pbkdf2_length password salt rounds length hl⟩

/-- C1 counterexample.  At password = salt = empty, iterations = 1,
outputLength = 1, the returned string has 2 characters, not 1: the claim
"returns exactly outputLength bytes" fails on the hex-encoded output. -/
theorem pbkdf2_not_length_bytes : (pbkdf2 [] [] 1 1).length ≠ 1 := by
  rw [pbkdf2_length [] [] 1 1 (by norm_num)]
  decide

/-- C1 witness. -/
theorem pbkdf2_standard_construction_witness :
    (1 : Int) ≤ 1 ∧ (pbkdf2 [] [] 1 1).length = 2 * (1 : Int).toNat :=
  ⟨by decide, (pbkdf2_standard_construction [] [] 1 1 (by decide) (by decide)).2.2⟩

/-- C2 (confirmed).  `lastpass_login_hash` is the two-stage composition: the
first stage derives 32 raw bytes from (password, salt = username,
iterations); the hex round-trip `unhexlify(pbkdf2(...))` feeds exactly that
raw 32-byte output into the second stage `pbkdf2(key, salt = password,
iterations = 1, 32)`. -/
theorem lastpass_login_hash_two_stage :
    ∀ (username password : List Nat) (iterations : Int),
      lastpass_login_hash username password iterations =
        pbkdf2 (pbkdf2Raw password username iterations 32) password 1 32 ∧
      (pbkdf2Raw password username iterations 32).length = 32 := by
  intro username password iterations
  constructor
  · rw [lastpass_login_hash, unhexlify_pbkdf2]
  · rw [pbkdf2Raw_length password username iterations 32 (by norm_num)]
    rfl

/-- C3 (confirmed).  On the parsed login response: a direct `<error>` child
with `cause="googleauthrequired"` raises `MfaRequiredException`; any other
`<error>` child raises `ValueError` carrying the server's `message`
attribute; no `<error>` child means success; and the two error kinds are
distinct constructors, so the caller can tell them apart. -/
theorem lastpass_login_error_spec :
    (∀ (doc e : Xml), doc.find "error" = some e →
        e.get "cause" = some "googleauthrequired" →
        lastpass_login_check doc = .error (.mfaRequired "Need MFA for this login")) ∧
    (∀ (doc e : Xml), doc.find "error" = some e →
        e.get "cause" ≠ some "googleauthrequired" →
        lastpass_login_check doc = .error (.valueError
          ("Could not login to lastpass: " ++ pyStrOfOpt (e.get "message")))) ∧
    (∀ doc : Xml, doc.find "error" = none → lastpass_login_check doc = .ok ()) ∧
    (∀ m1 m2 : String, LoginError.mfaRequired m1 ≠ LoginError.valueError m2) := by
  refine ⟨?_, ?_, ?_, ?_⟩
  · intro doc e h1 h2
    simp only [lastpass_login_check, h1]
    rw [if_pos h2]
  · intro doc e h1 h2
    simp only [lastpass_login_check, h1]
    rw [if_neg h2]
  · intro doc h
    simp only [lastpass_login_check, h]
  · intro m1 m2 h
    exact LoginError.noConfusion h

/-- C3 witness. -/
theorem lastpass_login_error_spec_witness :
    lastpass_login_check demoMfaDoc = .error (.mfaRequired "Need MFA for this login") :=
  lastpass_login_error_spec.1 demoMfaDoc demoMfaError rfl rfl

/-- C4 (corrected).  The iteration count is the parsed body on HTTP 200 with
an integer body, and 5000 on any non-200 status; but on HTTP 200 with an
unparsable body the `int()` call raises `ValueError` — there is no fallback
to 5000 on a parse failure. -/
theorem lastpass_iterations_spec :
    (∀ r : HttpResponse, r.status ≠ 200 → lastpass_iterations_check r = .ok 5000) ∧
    (∀ (r : HttpResponse) (n : Int), r.status = 200 → pyInt r.text = some n →
        lastpass_iterations_check r = .ok n) ∧
    (∀ r : HttpResponse, r.status = 200 → pyInt r.text = none →
        lastpass_iterations_check r =
          .error ("invalid literal for int() with base 10: " ++ r.text)) := by
  refine ⟨?_, ?_, ?_⟩
  · intro r h
    rw [lastpass_iterations_check, if_neg h]
  · intro r n h1 h2
    rw [lastpass_iterations_check, if_pos h1]
    simp only [h2]
  · intro r h1 h2
    rw [lastpass_iterations_check, if_pos h1]
    simp only [h2]

/-- C4 counterexample.  A 200 response whose body does not parse as an
integer produces a `ValueError`, not the 5000 fallback the claim states. -/
theorem lastpass_iterations_bad_body_raises :
    lastpass_iterations_check ⟨200, "five thousand"⟩ ≠ .ok 5000 ∧
    lastpass_iterations_check ⟨200, "five thousand"⟩ =
      .error "invalid literal for int() with base 10: five thousand" := by
  exact ⟨by decide, by decide⟩

/-- C4 witness. -/
theorem lastpass_iterations_spec_witness :
    (404 : Nat) ≠ 200 ∧ lastpass_iterations_check ⟨404, "oops"⟩ = .ok 5000 :=
  ⟨by decide, lastpass_iterations_spec.1 ⟨404, "oops"⟩ (by decide)⟩

/-- C5 (confirmed).  `get_saml_aws_roles` returns one entry per
`AttributeValue` node under the AWS-role `Attribute`, in document order (the
entries are the comma-splits of the node texts in order); splitting takes
the text before the first comma and between the first and second comma as
the (RoleArn, PrincipalArn) pair, anything beyond the second comma staying
in a trailing third component; and on the §8 two-node example it returns
exactly those two pairs in that order. -/
theorem get_saml_aws_roles_spec :
    (∀ (doc : Xml) (ts : List String),
        collectTexts (roleAttributeValues doc) = some ts →
        get_saml_aws_roles doc = some (ts.map pySplitComma2)) ∧
    (∀ a b : List Char, ',' ∉ a → ',' ∉ b →
        pySplitComma2 (String.mk (a ++ ',' :: b)) = [String.mk a, String.mk b]) ∧
    (∀ a b c : List Char, ',' ∉ a → ',' ∉ b →
        pySplitComma2 (String.mk (a ++ ',' :: (b ++ ',' :: c))) =
          [String.mk a, String.mk b, String.mk c]) ∧
    get_saml_aws_roles demoAssertion = some
      [["arn:aws:iam::111:role/A", "arn:aws:iam::111:saml-provider/IdP"],
       ["arn:aws:iam::111:role/B", "arn:aws:iam::111:saml-provider/IdP"]] :=
  ⟨fun _ ts h => splitComprehension_eq_collect _ ts h,
   pySplitComma2_pair, pySplitComma2_triple, by decide⟩

/-- C5 witness. -/
theorem get_saml_aws_roles_spec_witness :
    pySplitComma2 (String.mk ([ 'x' ] ++ ',' :: [ 'y' ])) =
      [String.mk [ 'x' ], String.mk [ 'y' ]] :=
  get_saml_aws_roles_spec.2.1 [ 'x' ] [ 'y' ] (by decide) (by decide)

/-- C6 (code bug).  The loop guard is `choice < 1 or choice > len(roles)+1`,
so the out-of-range choice `len(roles)+1` is accepted and `roles[choice-1]`
raises IndexError: with two roles, entering "3" crashes instead of
re-prompting.  The other conjuncts show the intended behaviour elsewhere:
out-of-range "5" and non-numeric "x" are re-prompted until the valid "2",
and a single role is returned with no interaction. -/
theorem prompt_for_role_offbyone :
    prompt_for_role [["r1", "p1"], ["r2", "p2"]] ["3"] = .indexError ∧
    prompt_for_role [["r1", "p1"], ["r2", "p2"]] ["5", "x", "2"] = .returns ["r2", "p2"] ∧
    prompt_for_role [["solo", "p"]] [] = .returns ["solo", "p"] :=
  ⟨by decide, by decide, by decide⟩

set_option maxRecDepth 8192 in
/-- C7 (confirmed).  `extract_form` collects every `name/value` capture into
the fields dict (later assignments win) but keeps only the first
`action="..."` capture; on the §8 page it returns exactly
`action = "https://x/acs"` with the single `SAMLResponse` field, and on a
two-form page both field pairs appear while the second action is ignored. -/
theorem extract_form_spec :
    (∀ html : List Char, extract_form html =
        { action := ((allActions html).head?).getD ""
          fields := (findNV html).foldl pyDictSet [] }) ∧
    extract_form demoFormPage.data =
      { action := "https://x/acs", fields := [("SAMLResponse", "abc123")] } ∧
    extract_form demoTwoFormPage.data =
      { action := "https://x/acs"
        fields := [("SAMLResponse", "abc123"), ("Other", "v2")] } := by
  refine ⟨?_, by decide, by decide⟩
  intro html
  rw [extract_form, searchAction_eq_head]

/-- C8 (confirmed).  On a page with no `action="` occurrence `extract_form`
returns the empty action string, and the `get_saml_token` failure path
scrapes the `<h2>` heading (entity unescape, `<br/>`, `<b>`, `</b>`
stripped): on `<h2>Error message</h2>` the scraped diagnostic is exactly
"Error message". -/
theorem get_saml_token_scrape_spec :
    (∀ html : List Char, strContains "action=\"".data html = false →
        (extract_form html).action = "") ∧
    h2LineMessage "<h2>Error message</h2>".data = some "Error message" ∧
    get_saml_token_check "<h2>Error message</h2>" =
      some "Unable to find SAML ACS\nError message" := by
  refine ⟨?_, by decide, by decide⟩
  intro html h
  cases hs : searchAction html with
  | none => simp [extract_form, hs]
  | some v =>
    rw [searchAction_contains html v hs] at h
    exact Bool.noConfusion h

/-- C8 witness. -/
theorem get_saml_token_scrape_spec_witness :
    strContains "action=\"".data "<p>err</p>".data = false ∧
    (extract_form "<p>err</p>".data).action = "" :=
  ⟨by decide, get_saml_token_scrape_spec.1 "<p>err</p>".data (by decide)⟩

/-- C9 (corrected).  `pbkdf2` performs no parameter validation and never
raises: for every iterations < 1 the inner loop simply runs zero extra
rounds, so the result equals the one-round derivation, and for every
outputLength < 1 the block range is empty and the empty string is
returned. -/
theorem pbkdf2_no_parameter_validation :
    ∀ (password salt : List Nat) (rounds length : Int),
      (rounds < 1 → pbkdf2 password salt rounds length = pbkdf2 password salt 1 length) ∧
      (length < 1 → pbkdf2 password salt rounds length = []) := by
  intro password salt rounds length
  exact ⟨fun h => pbkdf2_rounds_le_one password salt rounds length (by omega),
         fun h => pbkdf2_length_nonpos password salt rounds length h⟩

/-- C9 counterexample.  With iterations < 1 or outputLength < 1 the function
returns a value rather than failing: at (0, 0) it returns the empty string,
and at iterations = 0 with outputLength = 32 it returns a 64-character hex
string. -/
theorem pbkdf2_invalid_params_return_values :
    pbkdf2 [] [] 0 0 = [] ∧ (pbkdf2 [] [] 0 32).length = 64 := by
  constructor
  · decide
  · rw [pbkdf2_length [] [] 0 32 (by norm_num)]
    decide

/-- C9 witness. -/
theorem pbkdf2_no_parameter_validation_witness :
    ((-3 : Int) < 1 ∧ pbkdf2 [] [] (-3) 5 = pbkdf2 [] [] 1 5) ∧
    ((0 : Int) < 1 ∧ pbkdf2 [] [] 7 0 = []) :=
  ⟨⟨by decide, (pbkdf2_no_parameter_validation [] [] (-3) 5).1 (by decide)⟩,
   ⟨by decide, (pbkdf2_no_parameter_validation [] [] 7 0).2 (by decide)⟩⟩

/-- C10 (confirmed).  For each of the three requests the pipeline sends, the
TLS `verify` flag is true exactly when the literal substring
"https://lastpass.com" occurs somewhere in the server string; any server
string not containing it gets `verify = false`. -/
theorem should_verify_substring_spec :
    (∀ server username : String,
        (lastpass_iterations_request server username).verify = true ↔
          ∃ pre post, server.data = pre ++ "https://lastpass.com".data ++ post) ∧
    (∀ (server username : String) (password : List Nat) (iterations : Int)
        (otp : Option String),
        (lastpass_login_request server username password iterations otp).verify = true ↔
          ∃ pre post, server.data = pre ++ "https://lastpass.com".data ++ post) ∧
    (∀ server cfg : String,
        (get_saml_token_request server cfg).verify = true ↔
          ∃ pre post, server.data = pre ++ "https://lastpass.com".data ++ post) := by
  refine ⟨?_, ?_, ?_⟩
  · intro server username
    exact strContains_iff _ _
  · intro server username password iterations otp
    exact strContains_iff _ _
  · intro server cfg
    exact strContains_iff _ _

/-- C10 witness. -/
theorem should_verify_substring_spec_witness :
    (lastpass_iterations_request "https://lastpass.com" "user").verify = true :=
  (should_verify_substring_spec.1 "https://lastpass.com" "user").mpr ⟨[], [], by decide⟩

end AwsLp
